import Mathlib

/-!
Verification development for `Wiki_KPI_Report.py`, a one-shot batch script
that reads four spreadsheet exports and renders a PDF KPI report.

The script is embedded shallowly:

* spreadsheet cells become the inductive type `Cell` (a numeric cell is
  carried as an `Int`: every cell the script treats numerically — Excel
  serial dates and view counts — is integral);
* a pandas `DataFrame` becomes a rectangular list of rows (`DataFrame`,
  with an explicit `width` and a well-formedness fact, mirroring pandas'
  NaN-padding which makes every real frame rectangular);
* fallible operations (`read_excel` on a missing file, out-of-bounds
  `iloc`, an unparseable article date, `re.sub` applied to a non-string)
  return `Option`/propagate `none`, mirroring the unguarded exceptions of
  the script;
* the whole run (lines 34-156) becomes `run : Inputs → Option Report`,
  `none` meaning the process aborts with an unhandled error and no PDF.
-/

/-- A spreadsheet cell as the script observes it through pandas:
a numeric value, a text value, or a missing value (NaN). -/
inductive Cell where
  | num (n : Int)
  | str (s : String)
  | blank
deriving DecidableEq, Repr

/-- A calendar date (what the script's `datetime`/`Timestamp` values carry
once reduced to the day level; the script only ever formats dates). -/
structure Date where
  year : Int
  month : Nat
  day : Nat
deriving DecidableEq, Repr

/-- A pandas DataFrame as read by `pd.read_excel`: a rectangular table of
cells.  `wf` records rectangularity (pandas pads ragged sheets with NaN). -/
structure DataFrame where
  width : Nat
  rows : List (List Cell)
  wf : rows.all (fun r => r.length == width) = true

theorem DataFrame.len_of_mem (df : DataFrame) {r : List Cell} (h : r ∈ df.rows) :
    r.length = df.width := by
  have := df.wf
  rw [List.all_eq_true] at this
  simpa using this r h

/-- Positional lookup with a default (used to read a cell of a row or a row
of a frame; the pipeline only evaluates it at positions whose bounds it has
already checked, which is when the corresponding `iloc`/`[]` succeeds). -/
def getIdx {γ : Type} (dflt : γ) : List γ → Nat → γ
  | [], _ => dflt
  | x :: _, 0 => x
  | _ :: xs, j + 1 => getIdx dflt xs j

/-- Cell at position `(i, j)` of a frame (`df.iloc[i, j]`). -/
def cellAt (df : DataFrame) (i j : Nat) : Cell :=
  getIdx Cell.blank (getIdx [] df.rows i) j

/- ### Calendar arithmetic

`excel_date_to_datetime` adds a day count to the epoch `datetime(1899, 12, 30)`
(lines 11-24).  We embed civil-calendar/day-number conversions (standard
era-based algorithms) to give that addition meaning. -/

def isLeap (y : Int) : Bool :=
  y % 4 == 0 && (y % 100 != 0 || y % 400 == 0)

def daysInMonth (y : Int) (m : Nat) : Nat :=
  if m = 2 then (if isLeap y then 29 else 28)
  else if m = 4 ∨ m = 6 ∨ m = 9 ∨ m = 11 then 30
  else 31

/-- Day number (days since 1970-01-01, negative before) of a civil date. -/
def daysFromCivil (y : Int) (m : Nat) (d : Nat) : Int :=
  let y' : Int := if m ≤ 2 then y - 1 else y
  let era : Int := (if 0 ≤ y' then y' else y' - 399) / 400
  let yoe : Int := y' - era * 400
  let doy : Int := (153 * ((m : Int) + (if 2 < m then -3 else 9)) + 2) / 5 + (d : Int) - 1
  let doe : Int := yoe * 365 + yoe / 4 - yoe / 100 + doy
  era * 146097 + doe - 719468

/-- Civil date of a day number (inverse of `daysFromCivil`). -/
def civilFromDays (z : Int) : Date :=
  let z' := z + 719468
  let era : Int := (if 0 ≤ z' then z' else z' - 146096) / 146097
  let doe : Int := z' - era * 146097
  let yoe : Int := (doe - doe / 1460 + doe / 36524 - doe / 146096) / 365
  let y : Int := yoe + era * 400
  let doy : Int := doe - (365 * yoe + yoe / 4 - yoe / 100)
  let mp : Int := (5 * doy + 2) / 153
  let d : Int := doy - (153 * mp + 2) / 5 + 1
  let m : Int := mp + (if mp < 10 then 3 else -9)
  { year := if m ≤ 2 then y + 1 else y, month := m.toNat, day := d.toNat }

/- ### Date formatting and parsing -/

def monthName (m : Nat) : String :=
  (["January", "February", "March", "April", "May", "June", "July",
    "August", "September", "October", "November", "December"]).getD (m - 1) ""

def pad2 (n : Nat) : String :=
  if n < 10 then "0" ++ toString n else toString n

/-- `strftime('%B %d, %Y')`: full month name, zero-padded day, year. -/
def strftimeBdY (d : Date) : String :=
  monthName d.month ++ " " ++ pad2 d.day ++ ", " ++ toString d.year

/-- Split a character list on a separator character (all occurrences),
like Python's `str.split(sep)` / the field structure `strptime` sees. -/
def splitOnChar (sep : Char) : List Char → List Char → List (List Char)
  | [], acc => [acc.reverse]
  | c :: cs, acc =>
    if c = sep then acc.reverse :: splitOnChar sep cs []
    else splitOnChar sep cs (c :: acc)

def allDigits (l : List Char) : Bool :=
  decide (l ≠ []) && l.all Char.isDigit

def digitsToNat (l : List Char) : Nat :=
  l.foldl (fun a c => a * 10 + (c.toNat - 48)) 0

/-- `datetime.strptime(s, '%m/%d/%Y')` at the day level: exactly three
`/`-separated all-digit fields (month and day at most 2 digits, year at
most 4), ranges validated against the civil calendar.  This is the strict
parse `pd.to_datetime(..., format='%m/%d/%Y')` performs on a string. -/
def strptime_mdY (l : List Char) : Option Date :=
  match splitOnChar (Char.ofNat 47) l [] with
  | [ms, ds, ys] =>
    if allDigits ms ∧ allDigits ds ∧ allDigits ys
        ∧ ms.length ≤ 2 ∧ ds.length ≤ 2 ∧ ys.length ≤ 4 then
      let m := digitsToNat ms
      let d := digitsToNat ds
      let y : Int := (digitsToNat ys : Int)
      if 1 ≤ m ∧ m ≤ 12 ∧ 1 ≤ d ∧ d ≤ daysInMonth y m then
        some { year := y, month := m, day := d }
      else none
    else none
  | _ => none

/-- `pd.to_datetime(cell, format='%m/%d/%Y', errors='coerce')` (lines 51-52),
`none` standing for `NaT`: missing values coerce to `NaT`; numeric values
are stringified before the format parse (and a bare number never matches
the `'%m/%d/%Y'` format, so every numeric cell coerces to `NaT`); strings
go through the strict format parse. -/
def to_datetime_strict : Cell → Option Date
  | Cell.blank => none
  | Cell.num n => strptime_mdY (toString n).data
  | Cell.str s => strptime_mdY s.data

/-- Python `int(x)` on a string: optional sign then digits (line 18 applies
it to a cell; on a float it truncates, which on our integral cells is the
identity).  `none` stands for the `ValueError` caught at line 22. -/
def pyIntOfString (l : List Char) : Option Int :=
  match l with
  | c :: cs =>
    if c = Char.ofNat 45 then (if allDigits cs then some (-(digitsToNat cs : Int)) else none)
    else if allDigits l then some (digitsToNat l : Int) else none
  | [] => none

/-- `excel_date_to_datetime` (lines 11-24): `None` for missing values,
otherwise the Excel epoch `datetime(1899, 12, 30)` plus the serial-day
offset; a non-numeric string that `int()` rejects yields `None`.
Note: the script defines this function but never calls it. -/
def excel_date_to_datetime : Cell → Option Date
  | Cell.blank => none
  | Cell.num n => some (civilFromDays (daysFromCivil 1899 12 30 + n))
  | Cell.str s =>
    match pyIntOfString s.data with
    | some n => some (civilFromDays (daysFromCivil 1899 12 30 + n))
    | none => none

/-- The date-range extraction (lines 48-60): parse both cells strictly;
if either is `NaT`, both formatted values are the sentinel. -/
def date_range_strings (c0 c1 : Cell) : String × String :=
  match to_datetime_strict c0, to_datetime_strict c1 with
  | some s, some e => (strftimeBdY s, strftimeBdY e)
  | _, _ => ("Unavailable", "Unavailable")

/-- The date-range paragraph text (line 98). -/
def date_range_paragraph (c0 c1 : Cell) : String :=
  "Data from " ++ (date_range_strings c0 c1).1 ++ " to " ++ (date_range_strings c0 c1).2

example : to_datetime_strict (Cell.str "01/15/2024") = some ⟨2024, 1, 15⟩ := by decide
example : strftimeBdY ⟨2024, 1, 15⟩ = "January 15, 2024" := by decide
example : to_datetime_strict (Cell.num 45292) = none := by decide
example : excel_date_to_datetime (Cell.num 45292) = some ⟨2024, 1, 1⟩ := by decide

/- ### The search-query tokenizer `clean_query` (lines 26-32)

`re.sub(r'\W+', ' ', query).lower().split()`: every maximal run of
characters outside the regex word class `\w` is replaced by one space, the
result is lowercased, then split on whitespace with empties discarded.
On the (ASCII) character set the script's queries draw from, `\w` is
exactly "alphanumeric or underscore". -/

/-- The regex word class `\w` (ASCII fragment): alphanumeric or underscore. -/
def isWordChar (c : Char) : Bool :=
  c.isAlphanum || c == '_'

/-- `re.sub(p-class-complement-run, ' ', ·)` over a character list; the flag
records whether we are mid-run (the single replacement space already
emitted).  Parametrised by the character class kept. -/
def subRunsAux (keep : Char → Bool) : Bool → List Char → List Char
  | _, [] => []
  | inGap, c :: cs =>
    if keep c then c :: subRunsAux keep false cs
    else if inGap then subRunsAux keep true cs
    else (Char.ofNat 32) :: subRunsAux keep true cs

/-- Python `str.split()` (no separator): split on whitespace runs,
discarding empty tokens; `acc` holds the current token reversed. -/
def pySplitAux : List Char → List Char → List (List Char)
  | [], acc => if acc.isEmpty then [] else [acc.reverse]
  | c :: cs, acc =>
    if c.isWhitespace then
      if acc.isEmpty then pySplitAux cs [] else acc.reverse :: pySplitAux cs []
    else pySplitAux cs (c :: acc)

/-- `clean_query` (lines 26-32). -/
def clean_query (query : String) : List String :=
  (pySplitAux (((subRunsAux isWordChar false query.data).map Char.toLower)) []).map
    (fun l => String.mk l)

/-- The tokenizer exactly as claim C2 words it: every maximal run of
NON-ALPHANUMERIC characters (underscore included) replaced by one space,
then lowercase, then split on whitespace discarding empties. -/
def claimed_tokenize (query : String) : List String :=
  (pySplitAux (((subRunsAux Char.isAlphanum false query.data).map Char.toLower)) []).map
    (fun l => String.mk l)

/-- The amended tokenisation rule, stated directly: the tokens are the
maximal runs of word characters (alphanumeric or underscore), each
lowercased.  `acc` holds the current run reversed. -/
def wordRunsAux : List Char → List Char → List (List Char)
  | [], acc => if acc.isEmpty then [] else [acc.reverse]
  | c :: cs, acc =>
    if isWordChar c then wordRunsAux cs (c :: acc)
    else if acc.isEmpty then wordRunsAux cs [] else acc.reverse :: wordRunsAux cs []

def amended_tokenize (query : String) : List String :=
  (wordRunsAux query.data []).map (fun l => String.mk (l.map Char.toLower))

example : clean_query "Hello, World!" = ["hello", "world"] := by decide
example : clean_query "foo_bar" = ["foo_bar"] := by decide
example : claimed_tokenize "foo_bar" = ["foo", "bar"] := by decide
example : amended_tokenize "Hello, World!" = ["hello", "world"] := by decide

/- ### Frequency counting and stable top-N selection

`collections.Counter` over the flattened token stream (line 78) is a dict
keyed in first-insertion order; `most_common(5)` (line 80) is, per the
library documentation, `heapq.nlargest(5, items, key=count)`, itself
documented as `sorted(items, key=count, reverse=True)[:5]` — a STABLE
descending sort followed by a prefix.  `DataFrame.nlargest(10, col)` with
the default `keep='first'` (line 88) has the same shape: drop the rows
whose key is NaN, sort the rest descending keeping first-encountered order
among ties, take 10.  Both are embedded through one stable insertion sort
on key-carrying pairs. -/

/-- One `Counter` update: bump the token's count, or append it with count 1
(dict insertion order: new keys go to the end). -/
def counterAdd : List (String × Nat) → String → List (String × Nat)
  | [], t => [(t, 1)]
  | q :: rest, t =>
    if q.1 = t then (q.1, q.2 + 1) :: rest else q :: counterAdd rest t

/-- `Counter(all_words)` (line 78): items in first-insertion order. -/
def counter (ws : List String) : List (String × Nat) :=
  ws.foldl counterAdd []

/-- Stable descending insertion (by the second component): the new pair
goes after every strictly larger key and before equal ones it follows in
the original list order, because `sortDescBySnd` inserts right-to-left. -/
def insertDesc {α β : Type} [LinearOrder β] (p : α × β) : List (α × β) → List (α × β)
  | [] => [p]
  | q :: l => if p.2 < q.2 then q :: insertDesc p l else p :: q :: l

/-- Stable sort, descending in the second component. -/
def sortDescBySnd {α β : Type} [LinearOrder β] : List (α × β) → List (α × β)
  | [] => []
  | x :: xs => insertDesc x (sortDescBySnd xs)

/-- `most_common(n)` / `nlargest(n)` on key-carrying pairs. -/
def mostCommon {α β : Type} [LinearOrder β] (n : Nat) (l : List (α × β)) : List (α × β) :=
  (sortDescBySnd l).take n

/- ### Search aggregator (lines 71-83) -/

/-- Lines 74-76: clean every query of column 1 and flatten. -/
def all_words (queries : List String) : List String :=
  (queries.map clean_query).flatten

/-- Lines 78-82: the five most common tokens with their counts. -/
def search_data_rows (queries : List String) : List (String × Nat) :=
  mostCommon 5 (counter (all_words queries))

/- ### User aggregator (lines 85-91) -/

/-- `pd.to_numeric(cell, errors='coerce')`: a numeric cell keeps its value,
a numeric-looking string is parsed, anything else becomes NaN (`none`). -/
def to_numeric : Cell → Option Int
  | Cell.num n => some n
  | Cell.str s => pyIntOfString s.data
  | Cell.blank => none

/-- Line 87 then `.iloc[4:]`: each row reduced to (name cell, coerced
views); coercing the whole column and then slicing equals slicing and then
coercing row-wise. -/
def userRowsCoerced (rows : List (List Cell)) : List (Cell × Option Int) :=
  (rows.map (fun r => (getIdx Cell.blank r 0, to_numeric (getIdx Cell.blank r 3)))).drop 4

/-- The ranking candidates: rows whose views cell coerced (NaN rows are
excluded by `nlargest`). -/
def userCandidates (rows : List (List Cell)) : List (Cell × Int) :=
  (userRowsCoerced rows).filterMap
    (fun p => match p.2 with | some v => some (p.1, v) | none => none)

/-- Lines 88-90: `nlargest(10, 3)` then `[[name, int(views)]]` (the `int`
cast is the identity on our integral cells). -/
def user_data_rows (rows : List (List Cell)) : List (Cell × Int) :=
  mostCommon 10 (userCandidates rows)

example :
    search_data_rows ["Hello, World!", "hello there"]
      = [("hello", 2), ("world", 1), ("there", 1)] := by decide
example :
    user_data_rows [[], [], [], [],
        [Cell.str "a", Cell.blank, Cell.blank, Cell.num 3],
        [Cell.str "b", Cell.blank, Cell.blank, Cell.str "x"],
        [Cell.str "c", Cell.blank, Cell.blank, Cell.num 7]]
      = [(Cell.str "c", 7), (Cell.str "a", 3)] := by decide

/- ### Rendered table cells and the article/search stages -/

/-- A value handed to the PDF table renderer: a raw spreadsheet cell copied
through, a string the script built, or an integer the script cast. -/
inductive Out where
  | cell (c : Cell)
  | str (s : String)
  | int (n : Int)
deriving DecidableEq, Repr

/-- `pd.to_datetime(x)` with default arguments (line 67), at the day level,
composed with the `strftime` that immediately follows; `none` collects the
unhandled failures of that composite: an unparseable string raises in
`to_datetime`, and a missing value becomes `NaT`, whose `strftime` raises.
A numeric cell does NOT raise: it is read as an epoch offset in
nanoseconds.  For strings we embed the month/day/year shape as the
representative of the flexible parser's grammar: strings outside the
embedded grammar model the date-unparseable cells that raise. -/
def to_datetime_flex : Cell → Option Date
  | Cell.blank => none
  | Cell.num n => some (civilFromDays (n / 86400000000000))
  | Cell.str s => strptime_mdY s.data

/-- Lines 66-68, one article row of `questions_df.iloc[4:14, [1, 3, 8]]`:
`[row[0], row[1], pd.to_datetime(row[2]).strftime('%B %d, %Y')]`. -/
def questionsRowOne (r : List Cell) : Option (List Out) :=
  (to_datetime_flex (getIdx Cell.blank r 8)).map
    (fun d => [Out.cell (getIdx Cell.blank r 1), Out.cell (getIdx Cell.blank r 3),
               Out.str (strftimeBdY d)])

def questionsRowsAux : List (List Cell) → Option (List (List Out))
  | [] => some []
  | r :: rs =>
    match questionsRowOne r with
    | none => none
    | some row => (questionsRowsAux rs).map (fun rest => row :: rest)

/-- The article aggregator body (lines 66-68) over the fixed slice
`iloc[4:14]`; `none` is the uncaught date-parse error aborting the run. -/
def questionsRows (qdf : DataFrame) : Option (List (List Out)) :=
  questionsRowsAux ((qdf.rows.drop 4).take 10)

/-- `clean_query` is applied to every cell of column 1 of `searches.xls`
(line 74); `re.sub` raises `TypeError` on any non-string cell, so the
whole column must be strings (`none` = abort). -/
def stringsOfCells : List Cell → Option (List String)
  | [] => some []
  | Cell.str s :: cs => (stringsOfCells cs).map (fun rest => s :: rest)
  | _ :: _ => none

def searchQueries (sdf : DataFrame) : Option (List String) :=
  stringsOfCells (sdf.rows.map (fun r => getIdx Cell.blank r 1))

/-- Line 62: `categories_df.iloc[4:14, :2].values.tolist()` (slices are
lenient, so this never raises). -/
def category_rows (cdf : DataFrame) : List (List Out) :=
  ((cdf.rows.drop 4).take 10).map (fun r => (r.take 2).map Out.cell)

/- ### The whole run -/

/-- The four input files; `none` models a missing file, on which
`pd.read_excel` raises.  `questions` holds the data rows of
`questions_analytics.xls` (that file is read with a header row, which the
reader consumes); the other three are read with `header=None`. -/
structure Inputs where
  categories : Option DataFrame
  questions : Option DataFrame
  searches : Option DataFrame
  users : Option DataFrame

/-- What a completed run produced: the document contents and the lines
printed to standard output. -/
structure Report where
  dateRangeLine : String
  categoriesTable : List (List Out)
  articlesTable : List (List Out)
  searchesTable : List (List Out)
  usersTable : List (List Out)
  stdoutLines : List String
  outputFile : String
deriving DecidableEq, Repr

def errMsg : String := "Error: Start or end date is missing or invalid in the Excel file."

def successMsg : String := "PDF report generated successfully!"

/-- Assembly of the document and console output once every unguarded
operation has succeeded (lines 54-60, 62, 69, 83, 91, 93-156). -/
def mkReport (cdf : DataFrame) (qrows : List (List Out)) (queries : List String)
    (udf : DataFrame) : Report :=
  let c0 := cellAt cdf 0 1
  let c1 := cellAt cdf 1 1
  let fs := (date_range_strings c0 c1).1
  let fe := (date_range_strings c0 c1).2
  { dateRangeLine := "Data from " ++ fs ++ " to " ++ fe
    categoriesTable := [Out.str "Categories", Out.str "Views"] :: category_rows cdf
    articlesTable := [Out.str "Article", Out.str "Views", Out.str "Last Updated"] :: qrows
    searchesTable := [Out.str "Query", Out.str "Searches"] ::
      (search_data_rows queries).map (fun p => [Out.str p.1, Out.int (p.2 : Int)])
    usersTable := [Out.str "User", Out.str "Views"] ::
      (user_data_rows udf.rows).map (fun p => [Out.cell p.1, Out.int p.2])
    stdoutLines :=
      (if (to_datetime_strict c0).isNone ∨ (to_datetime_strict c1).isNone
       then [errMsg] else []) ++ [successMsg]
    outputFile := "wiki_kpi_report.pdf" }

/-- The whole script as a function of its input files.  `none` is an abort
by unhandled exception: a missing file, the `iloc[0, 1]`/`iloc[1, 1]`
accesses of lines 49-52 out of bounds, a column index out of range
(`iloc[:, [1, 3, 8]]` needs 9 columns, `searches_df[1]` needs 2,
`users_df[3]` needs 4), an article date cell that fails to parse, or a
non-string search query cell.  The guarded date cells never abort. -/
def run (inp : Inputs) : Option Report :=
  inp.categories.bind (fun cdf =>
    if 2 ≤ cdf.rows.length ∧ 2 ≤ cdf.width then
      inp.questions.bind (fun qdf =>
        if 9 ≤ qdf.width then
          (questionsRows qdf).bind (fun qrows =>
            inp.searches.bind (fun sdf =>
              if 2 ≤ sdf.width then
                (searchQueries sdf).bind (fun queries =>
                  inp.users.bind (fun udf =>
                    if 4 ≤ udf.width then
                      some (mkReport cdf qrows queries udf)
                    else none))
              else none))
        else none)
    else none)

/-- The success conditions of every unguarded stage, spelled out. -/
def stagesOk (inp : Inputs) : Prop :=
  ∃ cdf qdf sdf udf,
    inp.categories = some cdf ∧ 2 ≤ cdf.rows.length ∧ 2 ≤ cdf.width ∧
    inp.questions = some qdf ∧ 9 ≤ qdf.width ∧ (questionsRows qdf).isSome ∧
    inp.searches = some sdf ∧ 2 ≤ sdf.width ∧ (searchQueries sdf).isSome ∧
    inp.users = some udf ∧ 4 ≤ udf.width

/- ### Characterisation of a completed run -/

theorem run_eq_some_iff (inp : Inputs) (r : Report) :
    run inp = some r ↔
    ∃ cdf qdf qrows sdf queries udf,
      inp.categories = some cdf ∧ 2 ≤ cdf.rows.length ∧ 2 ≤ cdf.width ∧
      inp.questions = some qdf ∧ 9 ≤ qdf.width ∧ questionsRows qdf = some qrows ∧
      inp.searches = some sdf ∧ 2 ≤ sdf.width ∧ searchQueries sdf = some queries ∧
      inp.users = some udf ∧ 4 ≤ udf.width ∧ r = mkReport cdf qrows queries udf := by
  unfold run
  rcases hc : inp.categories with _ | cdf <;> simp [hc]
  by_cases h1a : 2 ≤ cdf.rows.length <;> simp [h1a]
  by_cases h1b : 2 ≤ cdf.width <;> simp [h1b]
  rcases hq : inp.questions with _ | qdf <;> simp [hq]
  by_cases h2 : 9 ≤ qdf.width <;> simp [h2]
  rcases hqr : questionsRows qdf with _ | qrows <;> simp [hqr]
  rcases hs : inp.searches with _ | sdf <;> simp [hs]
  by_cases h3 : 2 ≤ sdf.width <;> simp [h3]
  rcases hsq : searchQueries sdf with _ | queries <;> simp [hsq]
  rcases hu : inp.users with _ | udf <;> simp [hu]
  by_cases h4 : 4 ≤ udf.width <;> simp [h4]
  simp [eq_comm]

/- ### Lemmas about the stable descending selection -/

theorem insertDesc_perm {α β : Type} [LinearOrder β] (p : α × β) (l : List (α × β)) :
    List.Perm (insertDesc p l) (p :: l) := by
  induction l with
  | nil => exact List.Perm.refl _
  | cons q l ih =>
    unfold insertDesc
    by_cases h : p.2 < q.2
    · rw [if_pos h]
      exact (ih.cons q).trans (List.Perm.swap p q l)
    · rw [if_neg h]

theorem sortDescBySnd_perm {α β : Type} [LinearOrder β] (l : List (α × β)) :
    List.Perm (sortDescBySnd l) l := by
  induction l with
  | nil => exact List.Perm.refl _
  | cons x xs ih => exact (insertDesc_perm x (sortDescBySnd xs)).trans (ih.cons x)

theorem mem_insertDesc {α β : Type} [LinearOrder β] {a p : α × β} {l : List (α × β)} :
    a ∈ insertDesc p l ↔ a = p ∨ a ∈ l := by
  rw [(insertDesc_perm p l).mem_iff, List.mem_cons]

theorem insertDesc_sorted {α β : Type} [LinearOrder β] (p : α × β) {l : List (α × β)}
    (h : l.Pairwise (fun a b => b.2 ≤ a.2)) :
    (insertDesc p l).Pairwise (fun a b => b.2 ≤ a.2) := by
  induction l with
  | nil => simp [insertDesc]
  | cons q l ih =>
    rw [List.pairwise_cons] at h
    unfold insertDesc
    by_cases hlt : p.2 < q.2
    · rw [if_pos hlt]
      rw [List.pairwise_cons]
      refine ⟨fun a ha => ?_, ih h.2⟩
      rcases mem_insertDesc.1 ha with rfl | ha
      · exact le_of_lt hlt
      · exact h.1 a ha
    · rw [if_neg hlt]
      rw [List.pairwise_cons]
      refine ⟨fun a ha => ?_, List.pairwise_cons.2 h⟩
      rcases List.mem_cons.1 ha with rfl | ha
      · exact le_of_not_lt hlt
      · exact le_trans (h.1 a ha) (le_of_not_lt hlt)

theorem sortDescBySnd_sorted {α β : Type} [LinearOrder β] (l : List (α × β)) :
    (sortDescBySnd l).Pairwise (fun a b => b.2 ≤ a.2) := by
  induction l with
  | nil => simp [sortDescBySnd]
  | cons x xs ih => exact insertDesc_sorted x ih

/-- The top-N selection both library routines perform: the result is a
permutation-prefix of the input whose elements dominate everything left
out. -/
theorem mostCommon_spec {α β : Type} [LinearOrder β] (n : Nat) (l : List (α × β)) :
    ∃ rest, List.Perm l (mostCommon n l ++ rest)
      ∧ ∀ q ∈ rest, ∀ p ∈ mostCommon n l, q.2 ≤ p.2 := by
  refine ⟨(sortDescBySnd l).drop n, ?_, ?_⟩
  · have h1 : mostCommon n l ++ (sortDescBySnd l).drop n = sortDescBySnd l :=
      List.take_append_drop n (sortDescBySnd l)
    rw [h1]
    exact (sortDescBySnd_perm l).symm
  · intro q hq p hp
    have hs := sortDescBySnd_sorted l
    rw [← List.take_append_drop n (sortDescBySnd l), List.pairwise_append] at hs
    exact hs.2.2 p hp q hq

/-- Stability: inserting an element does not change any fixed-key filtered
subsequence beyond prepending the element when its key matches. -/
theorem filter_insertDesc {α β : Type} [LinearOrder β] [DecidableEq α] (p : α × β)
    (l : List (α × β)) (v : β) :
    (insertDesc p l).filter (fun q => decide (q.2 = v))
      = ((p :: l).filter (fun q => decide (q.2 = v))) := by
  induction l with
  | nil => rfl
  | cons q l ih =>
    unfold insertDesc
    by_cases hlt : p.2 < q.2
    · rw [if_pos hlt]
      by_cases hq : q.2 = v <;> by_cases hp : p.2 = v
      · rw [hp, hq] at hlt
        exact absurd hlt (lt_irrefl v)
      · simp [List.filter_cons, hq, hp, ih]
      · simp [List.filter_cons, hq, hp, ih]
      · simp [List.filter_cons, hq, hp, ih]
    · rw [if_neg hlt]

theorem filter_sortDescBySnd {α β : Type} [LinearOrder β] [DecidableEq α]
    (l : List (α × β)) (v : β) :
    (sortDescBySnd l).filter (fun q => decide (q.2 = v))
      = l.filter (fun q => decide (q.2 = v)) := by
  induction l with
  | nil => rfl
  | cons x xs ih =>
    show (insertDesc x (sortDescBySnd xs)).filter _ = _
    rw [filter_insertDesc]
    by_cases hx : x.2 = v <;> simp [List.filter_cons, hx, ih]

theorem filter_take_isPre {α : Type} (f : α → Bool) (n : Nat) (l : List α) :
    (l.take n).filter f <+: l.filter f := by
  induction l generalizing n with
  | nil => simp
  | cons a l ih =>
    cases n with
    | zero => simp
    | succ n =>
      rw [List.take_succ_cons]
      by_cases ha : f a = true
      · rw [List.filter_cons_of_pos ha, List.filter_cons_of_pos ha]
        obtain ⟨t, ht⟩ := ih n
        exact ⟨t, by rw [List.cons_append, ht]⟩
      · rw [List.filter_cons_of_neg ha, List.filter_cons_of_neg ha]
        exact ih n

/-- Stability of the whole selection, phrased observably: for every key
value, the selected pairs with that key form a prefix of the input's pairs
with that key (so ties keep their first-encountered order). -/
theorem mostCommon_stable {α β : Type} [LinearOrder β] [DecidableEq α]
    (n : Nat) (l : List (α × β)) (v : β) :
    (mostCommon n l).filter (fun q => decide (q.2 = v))
      <+: l.filter (fun q => decide (q.2 = v)) := by
  unfold mostCommon
  have h := filter_take_isPre (fun q : α × β => decide (q.2 = v)) n (sortDescBySnd l)
  rwa [filter_sortDescBySnd] at h

/- ### Lemmas about the counter -/

theorem counterAdd_sum (l : List (String × Nat)) (t : String) :
    ((counterAdd l t).map (fun p => p.2)).sum = ((l.map (fun p => p.2)).sum) + 1 := by
  induction l with
  | nil => rfl
  | cons q l ih =>
    unfold counterAdd
    by_cases h : q.1 = t <;> simp [h, ih] <;> omega

theorem counter_sum (ws : List String) :
    ((counter ws).map (fun p => p.2)).sum = ws.length := by
  suffices h : ∀ init : List (String × Nat),
      ((ws.foldl counterAdd init).map (fun p => p.2)).sum
        = ((init.map (fun p => p.2)).sum) + ws.length by
    simpa using h []
  induction ws with
  | nil => intro init; simp
  | cons w ws ih =>
    intro init
    rw [List.foldl_cons, ih, counterAdd_sum, List.length_cons]
    omega

theorem counterAdd_pos {l : List (String × Nat)} (t : String)
    (h : ∀ p ∈ l, 0 < p.2) : ∀ p ∈ counterAdd l t, 0 < p.2 := by
  induction l with
  | nil =>
    intro p hp
    simp [counterAdd] at hp
    simp [hp]
  | cons q l ih =>
    unfold counterAdd
    by_cases hq : q.1 = t
    · rw [if_pos hq]
      intro p hp
      rcases List.mem_cons.1 hp with rfl | hp
      · exact Nat.succ_pos q.2
      · exact h p (List.mem_cons_of_mem q hp)
    · rw [if_neg hq]
      intro p hp
      rcases List.mem_cons.1 hp with rfl | hp
      · exact h p (List.mem_cons_self p l)
      · exact ih (fun p hp => h p (List.mem_cons_of_mem q hp)) p hp

theorem counter_pos (ws : List String) : ∀ p ∈ counter ws, 0 < p.2 := by
  suffices h : ∀ init : List (String × Nat), (∀ p ∈ init, 0 < p.2) →
      ∀ p ∈ ws.foldl counterAdd init, 0 < p.2 by
    exact h [] (by simp)
  induction ws with
  | nil => intro init hi; simpa using hi
  | cons w ws ih =>
    intro init hi
    rw [List.foldl_cons]
    exact ih (counterAdd init w) (counterAdd_pos w hi)

/- ### Lemmas about the article rows -/

theorem questionsRowsAux_isSome (l : List (List Cell)) :
    (questionsRowsAux l).isSome = true
      ↔ ∀ r ∈ l, (to_datetime_flex (getIdx Cell.blank r 8)).isSome = true := by
  induction l with
  | nil => simp [questionsRowsAux]
  | cons r rs ih =>
    unfold questionsRowsAux questionsRowOne
    rcases hd : to_datetime_flex (getIdx Cell.blank r 8) with _ | d
    · simp [hd]
    · simp [hd, ih]

theorem questionsRowsAux_mem {l : List (List Cell)} {l' : List (List Out)}
    (h : questionsRowsAux l = some l') :
    ∀ row ∈ l', ∃ r ∈ l, questionsRowOne r = some row := by
  induction l generalizing l' with
  | nil =>
    have h' : ([] : List (List Out)) = l' := by simpa [questionsRowsAux] using h
    intro row hrow
    rw [← h'] at hrow
    cases hrow
  | cons r rs ih =>
    unfold questionsRowsAux at h
    rcases hone : questionsRowOne r with _ | row0 <;> rw [hone] at h
    · exact absurd h (by simp)
    · rcases hrest : questionsRowsAux rs with _ | rest <;> rw [hrest] at h
      · exact absurd h (by simp)
      · simp at h
        intro row hrow
        rw [← h] at hrow
        rcases List.mem_cons.1 hrow with rfl | hrow
        · exact ⟨r, List.mem_cons_self r rs, hone⟩
        · obtain ⟨r', hr', h'⟩ := ih hrest row hrow
          exact ⟨r', List.mem_cons_of_mem r hr', h'⟩

theorem questionsRowOne_length {r : List Cell} {row : List Out}
    (h : questionsRowOne r = some row) : row.length = 3 := by
  unfold questionsRowOne at h
  rcases hd : to_datetime_flex (getIdx Cell.blank r 8) with _ | d <;> rw [hd] at h
  · exact absurd h (by simp)
  · simp at h
    rw [← h]
    rfl

theorem questionsRowOne_eq {r : List Cell} {d : Date}
    (h : to_datetime_flex (getIdx Cell.blank r 8) = some d) :
    questionsRowOne r
      = some [Out.cell (getIdx Cell.blank r 1), Out.cell (getIdx Cell.blank r 3),
              Out.str (strftimeBdY d)] := by
  unfold questionsRowOne
  rw [h]
  rfl

/- ### Character-level lemmas for the tokenizer -/

theorem char_toNat_ofNat {n : Nat} (h : n < 55296) : (Char.ofNat n).toNat = n := by
  have hv : n.isValidChar := Or.inl h
  unfold Char.ofNat
  rw [dif_pos hv]
  rfl

/-- Lowercasing never turns a word character into whitespace (so the final
`split()` cuts exactly at the substituted spaces). -/
theorem toLower_not_whitespace {c : Char} (h : isWordChar c = true) :
    (Char.toLower c).isWhitespace = false := by
  unfold Char.toLower
  by_cases hc : Char.toNat c ≥ 65 ∧ Char.toNat c ≤ 90
  · rw [if_pos hc]
    have hm : (Char.ofNat (Char.toNat c + 32)).toNat = Char.toNat c + 32 :=
      char_toNat_ofNat (by omega)
    have h1 : Char.ofNat (Char.toNat c + 32) ≠ ' ' := fun he => by
      rw [he] at hm
      have h' : 32 = Char.toNat c + 32 := hm
      omega
    have h2 : Char.ofNat (Char.toNat c + 32) ≠ '\t' := fun he => by
      rw [he] at hm
      have h' : 9 = Char.toNat c + 32 := hm
      omega
    have h3 : Char.ofNat (Char.toNat c + 32) ≠ '\r' := fun he => by
      rw [he] at hm
      have h' : 13 = Char.toNat c + 32 := hm
      omega
    have h4 : Char.ofNat (Char.toNat c + 32) ≠ '\n' := fun he => by
      rw [he] at hm
      have h' : 10 = Char.toNat c + 32 := hm
      omega
    simp [Char.isWhitespace, h1, h2, h3, h4]
  · rw [if_neg hc]
    have h1 : c ≠ ' ' := fun he => by rw [he] at h; exact absurd h (by decide)
    have h2 : c ≠ '\t' := fun he => by rw [he] at h; exact absurd h (by decide)
    have h3 : c ≠ '\r' := fun he => by rw [he] at h; exact absurd h (by decide)
    have h4 : c ≠ '\n' := fun he => by rw [he] at h; exact absurd h (by decide)
    simp [Char.isWhitespace, h1, h2, h3, h4]

/-- Substitute-lowercase-split computes exactly the lowercased maximal
word-character runs.  `b` is the substitution's mid-gap flag, `acc` the
token under construction (an invariant ties them: mid-gap, the token is
empty). -/
theorem split_sub_eq_wordRuns (cs : List Char) : ∀ (b : Bool) (acc : List Char),
    (∀ c ∈ acc, isWordChar c = true) → (b = true → acc = []) →
    pySplitAux ((subRunsAux isWordChar b cs).map Char.toLower) (acc.map Char.toLower)
      = (wordRunsAux cs acc).map (fun l => l.map Char.toLower) := by
  induction cs with
  | nil =>
    intro b acc hacc hb
    cases acc with
    | nil => simp [subRunsAux, pySplitAux, wordRunsAux]
    | cons a as =>
      simp [subRunsAux, pySplitAux, wordRunsAux, List.map_reverse]
  | cons c cs ih =>
    intro b acc hacc hb
    by_cases hw : isWordChar c = true
    · have hsub : subRunsAux isWordChar b (c :: cs) = c :: subRunsAux isWordChar false cs := by
        simp only [subRunsAux]
        rw [if_pos hw]
      have hws : (Char.toLower c).isWhitespace = false := toLower_not_whitespace hw
      rw [hsub, List.map_cons]
      have hsplit : pySplitAux (Char.toLower c :: (subRunsAux isWordChar false cs).map Char.toLower)
          (acc.map Char.toLower)
          = pySplitAux ((subRunsAux isWordChar false cs).map Char.toLower)
              ((c :: acc).map Char.toLower) := by
        simp only [pySplitAux]
        rw [hws]
        simp
      rw [hsplit]
      have hruns : wordRunsAux (c :: cs) acc = wordRunsAux cs (c :: acc) := by
        simp only [wordRunsAux]
        rw [if_pos hw]
      rw [hruns]
      exact ih false (c :: acc)
        (fun x hx => by
          rcases List.mem_cons.1 hx with rfl | hx
          · exact hw
          · exact hacc x hx)
        (by simp)
    · cases b with
      | true =>
        have hae : acc = [] := hb rfl
        subst hae
        have hsub : subRunsAux isWordChar true (c :: cs) = subRunsAux isWordChar true cs := by
          simp only [subRunsAux]
          rw [if_neg hw]
          simp
        have hruns : wordRunsAux (c :: cs) [] = wordRunsAux cs [] := by
          simp only [wordRunsAux]
          rw [if_neg hw]
          simp
        rw [hsub, hruns]
        exact ih true [] (by simp) (fun _ => rfl)
      | false =>
        have hsub : subRunsAux isWordChar false (c :: cs)
            = Char.ofNat 32 :: subRunsAux isWordChar true cs := by
          simp only [subRunsAux]
          rw [if_neg hw]
          simp
        rw [hsub, List.map_cons]
        have hspace : Char.toLower (Char.ofNat 32) = Char.ofNat 32 := by decide
        have hwsp : (Char.ofNat 32).isWhitespace = true := by decide
        rw [hspace]
        have htail := ih true [] (by simp) (fun _ => rfl)
        cases acc with
        | nil =>
          have hsplit : pySplitAux (Char.ofNat 32 :: (subRunsAux isWordChar true cs).map Char.toLower)
              (([] : List Char).map Char.toLower)
              = pySplitAux ((subRunsAux isWordChar true cs).map Char.toLower) [] := by
            simp only [pySplitAux]
            rw [hwsp]
            simp
          rw [hsplit]
          have hruns : wordRunsAux (c :: cs) [] = wordRunsAux cs [] := by
            simp only [wordRunsAux]
            rw [if_neg hw]
            simp
          rw [hruns]
          exact htail
        | cons a as =>
          have hsplit : pySplitAux (Char.ofNat 32 :: (subRunsAux isWordChar true cs).map Char.toLower)
              ((a :: as).map Char.toLower)
              = ((a :: as).map Char.toLower).reverse
                  :: pySplitAux ((subRunsAux isWordChar true cs).map Char.toLower) [] := by
            simp only [pySplitAux]
            rw [hwsp]
            simp
          rw [hsplit]
          have hruns : wordRunsAux (c :: cs) (a :: as)
              = (a :: as).reverse :: wordRunsAux cs [] := by
            simp only [wordRunsAux]
            rw [if_neg hw]
            simp
          rw [hruns]
          simp only [List.map_nil] at htail
          simp [List.map_reverse, htail]

/-- `clean_query` implements the amended tokenisation rule verbatim on
every input string. -/
theorem clean_query_eq_amended (q : String) : clean_query q = amended_tokenize q := by
  unfold clean_query amended_tokenize
  have h := split_sub_eq_wordRuns q.data false [] (by simp) (by simp)
  simp only [List.map_nil] at h
  rw [h, List.map_map]
  rfl

theorem run_isSome_iff_stagesOk (inp : Inputs) :
    (∃ r, run inp = some r) ↔ stagesOk inp := by
  constructor
  · rintro ⟨r, hr⟩
    rw [run_eq_some_iff] at hr
    obtain ⟨cdf, qdf, qrows, sdf, queries, udf, h⟩ := hr
    exact ⟨cdf, qdf, sdf, udf, h.1, h.2.1, h.2.2.1, h.2.2.2.1, h.2.2.2.2.1,
      by rw [h.2.2.2.2.2.1]; rfl,
      h.2.2.2.2.2.2.1, h.2.2.2.2.2.2.2.1,
      by rw [h.2.2.2.2.2.2.2.2.1]; rfl,
      h.2.2.2.2.2.2.2.2.2.1, h.2.2.2.2.2.2.2.2.2.2.1⟩
  · rintro ⟨cdf, qdf, sdf, udf, hc, hl, hw, hq, hqw, hqs, hs, hsw, hss, hu, huw⟩
    rw [Option.isSome_iff_exists] at hqs hss
    obtain ⟨qrows, hqr⟩ := hqs
    obtain ⟨queries, hsq⟩ := hss
    exact ⟨mkReport cdf qrows queries udf,
      (run_eq_some_iff inp _).2
        ⟨cdf, qdf, qrows, sdf, queries, udf, hc, hl, hw, hq, hqw, hqr, hs, hsw,
         hsq, hu, huw, rfl⟩⟩

/- ### Concrete input fixtures (used by witnesses) -/

def cdfGood : DataFrame :=
  ⟨2, [[Cell.blank, Cell.str "01/01/2024"], [Cell.blank, Cell.str "01/31/2024"]], by decide⟩

def cdfBad : DataFrame :=
  ⟨2, [[Cell.blank, Cell.str "bogus"], [Cell.blank, Cell.str "01/31/2024"]], by decide⟩

def qdfEmpty : DataFrame := ⟨9, [], rfl⟩

def qrow (c8 : Cell) : List Cell :=
  [Cell.blank, Cell.str "How to reset a password", Cell.blank, Cell.num 12,
   Cell.blank, Cell.blank, Cell.blank, Cell.blank, c8]

def qdfBadDate : DataFrame :=
  ⟨9, [qrow Cell.blank, qrow Cell.blank, qrow Cell.blank, qrow Cell.blank,
       qrow (Cell.str "not a date")], by decide⟩

def sdfOne : DataFrame := ⟨2, [[Cell.blank, Cell.str "Hello, World!"]], by decide⟩

def udfEmpty : DataFrame := ⟨4, [], rfl⟩

def inpGood : Inputs := ⟨some cdfGood, some qdfEmpty, some sdfOne, some udfEmpty⟩

def inpBad : Inputs := ⟨some cdfBad, some qdfEmpty, some sdfOne, some udfEmpty⟩

def inpQBad : Inputs := ⟨some cdfGood, some qdfBadDate, some sdfOne, some udfEmpty⟩

example : run inpGood = some (mkReport cdfGood [] ["Hello, World!"] udfEmpty) := rfl
example : run inpBad = some (mkReport cdfBad [] ["Hello, World!"] udfEmpty) := rfl
example : run inpQBad = none := rfl

/- ### Claim theorems -/

/-- C1: if both designated date cells of the categories file parse under
the strict month/day/year format, the rendered date-range string is the
two dates formatted as "Month DD, YYYY" joined by " to " (inside the
"Data from ... to ..." paragraph); if either cell is missing or fails to
parse, both formatted values are the sentinel "Unavailable", the run does
not abort on that account, and the report is still produced. -/
theorem c1_date_range_extractor :
    (∀ c0 c1 d0 d1, to_datetime_strict c0 = some d0 → to_datetime_strict c1 = some d1 →
        date_range_strings c0 c1 = (strftimeBdY d0, strftimeBdY d1)
        ∧ date_range_paragraph c0 c1
            = "Data from " ++ strftimeBdY d0 ++ " to " ++ strftimeBdY d1)
  ∧ (∀ c0 c1, to_datetime_strict c0 = none ∨ to_datetime_strict c1 = none →
        date_range_strings c0 c1 = ("Unavailable", "Unavailable"))
  ∧ (∀ inp cdf, inp.categories = some cdf →
        to_datetime_strict (cellAt cdf 0 1) = none
          ∨ to_datetime_strict (cellAt cdf 1 1) = none →
        stagesOk inp →
        ∃ r, run inp = some r
          ∧ r.dateRangeLine = "Data from Unavailable to Unavailable") := by
  refine ⟨?_, ?_, ?_⟩
  · intro c0 c1 d0 d1 h0 h1
    unfold date_range_paragraph date_range_strings
    rw [h0, h1]
    exact ⟨rfl, rfl⟩
  · intro c0 c1 h
    unfold date_range_strings
    rcases h with h | h
    · rw [h]
    · rw [h]
      rcases to_datetime_strict c0 with _ | d <;> rfl
  · intro inp cdf hc hbad hok
    obtain ⟨r, hr⟩ := (run_isSome_iff_stagesOk inp).2 hok
    refine ⟨r, hr, ?_⟩
    rw [run_eq_some_iff] at hr
    obtain ⟨cdf', qdf, qrows, sdf, queries, udf, hc', _, _, _, _, _, _, _, _, _, _, hrr⟩ := hr
    rw [hc'] at hc
    injection hc with hcc
    rw [← hcc] at hbad
    rw [hrr]
    show "Data from " ++ (date_range_strings (cellAt cdf' 0 1) (cellAt cdf' 1 1)).1 ++ " to "
        ++ (date_range_strings (cellAt cdf' 0 1) (cellAt cdf' 1 1)).2 = _
    have hu : date_range_strings (cellAt cdf' 0 1) (cellAt cdf' 1 1)
        = ("Unavailable", "Unavailable") := by
      unfold date_range_strings
      rcases hbad with h | h
      · rw [h]
      · rw [h]
        rcases to_datetime_strict (cellAt cdf' 0 1) with _ | d <;> rfl
    rw [hu]
    rfl

theorem c1_witness :
    date_range_paragraph (Cell.str "01/01/2024") (Cell.str "01/31/2024")
      = "Data from January 01, 2024 to January 31, 2024"
  ∧ date_range_strings (Cell.str "bogus") (Cell.str "01/31/2024")
      = ("Unavailable", "Unavailable")
  ∧ (∃ r, run inpBad = some r
        ∧ r.dateRangeLine = "Data from Unavailable to Unavailable") := by
  refine ⟨?_, ?_, ?_⟩
  · have h := (c1_date_range_extractor.1 (Cell.str "01/01/2024") (Cell.str "01/31/2024")
      ⟨2024, 1, 1⟩ ⟨2024, 1, 31⟩ (by decide) (by decide)).2
    exact h.trans (by decide)
  · exact c1_date_range_extractor.2.1 _ _ (Or.inl (by decide))
  · refine c1_date_range_extractor.2.2 inpBad cdfBad rfl (Or.inl (by decide)) ?_
    exact ⟨cdfBad, qdfEmpty, sdfOne, udfEmpty, rfl, by decide, by decide, rfl,
      by decide, by decide, rfl, by decide, by decide, rfl, by decide⟩

/-- C2 counterexample: the claimed rule replaces EVERY maximal run of
non-alphanumeric characters by a space, so it would split "foo_bar" at the
underscore; the script's `\W+` keeps the underscore, so `clean_query`
yields the single token "foo_bar" and the claim fails on this input. -/
theorem c2_counterexample :
    clean_query "foo_bar" ≠ claimed_tokenize "foo_bar"
  ∧ clean_query "foo_bar" = ["foo_bar"]
  ∧ claimed_tokenize "foo_bar" = ["foo", "bar"] :=
  ⟨by decide, by decide, by decide⟩

/-- C2 amended: for every input query string, every maximal run of
characters that are neither alphanumeric nor underscore is replaced by a
single space, the result is lowercased and split on whitespace with empty
tokens discarded (equivalently: the tokens are the lowercased maximal runs
of word characters); consequently tokenization is case-insensitive and
punctuation-insensitive, e.g. "Hello, World!" and "hello world" yield
identical token lists. -/
theorem c2_tokenization_amended :
    (∀ q : String, clean_query q = amended_tokenize q)
  ∧ clean_query "Hello, World!" = clean_query "hello world"
  ∧ clean_query "Hello, World!" = ["hello", "world"] :=
  ⟨clean_query_eq_amended, by decide, by decide⟩

theorem c2_witness : clean_query "It's 5 o'clock" = amended_tokenize "It's 5 o'clock" :=
  c2_tokenization_amended.1 "It's 5 o'clock"

/-- C7: the spec says the extractor reads two serial-date cells and turns
numeric serial values into the formatted range.  The code coerces every
numeric cell to NaT under its strict string format, so serial cells
produce the "Unavailable" fallback; the serial converter
`excel_date_to_datetime` the script defines for exactly this purpose
(which maps serial 45292 to 2024-01-01) is never called.  This theorem
evaluates the code at serial date cells: the claim is right about the
intent and the code drops to the fallback. -/
theorem c7_serial_cells_fall_back :
    excel_date_to_datetime (Cell.num 45292) = some ⟨2024, 1, 1⟩
  ∧ excel_date_to_datetime (Cell.num 45322) = some ⟨2024, 1, 31⟩
  ∧ to_datetime_strict (Cell.num 45292) = none
  ∧ to_datetime_strict (Cell.num 45322) = none
  ∧ date_range_strings (Cell.num 45292) (Cell.num 45322)
      = ("Unavailable", "Unavailable") :=
  ⟨by decide, by decide, by decide, by decide, by decide⟩

/-- C10: the tokenizer treats the underscore as a word character, not as
punctuation — a query consisting of an underscore between two alphanumeric
characters is kept as one token (lowercased), not split in two. -/
theorem c10_underscore_word_char (a b : Char)
    (ha : a.isAlphanum = true) (hb : b.isAlphanum = true) :
    clean_query (String.mk [a, Char.ofNat 95, b])
      = [String.mk [a.toLower, Char.ofNat 95, b.toLower]] := by
  rw [clean_query_eq_amended]
  have hwa : isWordChar a = true := by simp [isWordChar, ha]
  have hwb : isWordChar b = true := by simp [isWordChar, hb]
  have hwu : isWordChar (Char.ofNat 95) = true := by decide
  have hdata : (String.mk [a, Char.ofNat 95, b]).data = [a, Char.ofNat 95, b] := rfl
  unfold amended_tokenize
  rw [hdata]
  have h1 : wordRunsAux [a, Char.ofNat 95, b] [] = [[a, Char.ofNat 95, b]] := by
    simp [wordRunsAux, hwa, hwb, hwu]
  rw [h1]
  have hlu : Char.toLower (Char.ofNat 95) = Char.ofNat 95 := by decide
  simp [hlu]

theorem c10_witness : clean_query "a_b" = ["a_b"] := by
  have h := c10_underscore_word_char (Char.ofNat 97) (Char.ofNat 98)
    (by decide) (by decide)
  have he : "a_b" = String.mk [Char.ofNat 97, Char.ofNat 95, Char.ofNat 98] := by decide
  rw [he, h]
  decide

/-- C3: for every searches input, the search aggregator's data rows (the
table is these rows under the header) number at most 5; each count is a
positive (hence non-negative) integer; the counts sum to at most the total
number of tokens across all rows; the selected rows dominate every counted
token left out; and among equal counts the order follows the counter's
first-insertion order (for each count value, the selected rows form a
prefix of the counter's rows with that count). -/
theorem c3_search_aggregator (queries : List String) :
    (search_data_rows queries).length ≤ 5
  ∧ (∀ p ∈ search_data_rows queries, 0 < p.2)
  ∧ ((search_data_rows queries).map (fun p => p.2)).sum ≤ (all_words queries).length
  ∧ (search_data_rows queries).Pairwise (fun p q => q.2 ≤ p.2)
  ∧ (∃ rest, List.Perm (counter (all_words queries)) (search_data_rows queries ++ rest)
        ∧ ∀ q ∈ rest, ∀ p ∈ search_data_rows queries, q.2 ≤ p.2)
  ∧ (∀ v, (search_data_rows queries).filter (fun p => decide (p.2 = v))
        <+: (counter (all_words queries)).filter (fun p => decide (p.2 = v))) := by
  refine ⟨?_, ?_, ?_, ?_, ?_, ?_⟩
  · have h := List.length_take 5 (sortDescBySnd (counter (all_words queries)))
    unfold search_data_rows mostCommon
    omega
  · intro p hp
    have h1 : p ∈ sortDescBySnd (counter (all_words queries)) :=
      List.take_subset _ _ hp
    have h2 : p ∈ counter (all_words queries) :=
      (sortDescBySnd_perm _).mem_iff.1 h1
    exact counter_pos _ p h2
  · have hmap : (search_data_rows queries).map (fun p => p.2)
        = ((sortDescBySnd (counter (all_words queries))).map (fun p => p.2)).take 5 := by
      unfold search_data_rows mostCommon
      rw [List.map_take]
    rw [hmap]
    have hperm : ((sortDescBySnd (counter (all_words queries))).map (fun p => p.2)).sum
        = ((counter (all_words queries)).map (fun p => p.2)).sum :=
      ((sortDescBySnd_perm _).map _).sum_eq
    have hsplit := List.take_append_drop 5
      ((sortDescBySnd (counter (all_words queries))).map (fun p => p.2))
    have : (((sortDescBySnd (counter (all_words queries))).map (fun p => p.2)).take 5).sum
        ≤ ((sortDescBySnd (counter (all_words queries))).map (fun p => p.2)).sum := by
      conv_rhs => rw [← hsplit]
      rw [List.sum_append]
      exact Nat.le_add_right _ _
    rw [counter_sum] at hperm
    omega
  · exact (sortDescBySnd_sorted _).sublist (List.take_sublist _ _)
  · exact mostCommon_spec 5 (counter (all_words queries))
  · intro v
    exact mostCommon_stable 5 (counter (all_words queries)) v

theorem c3_witness :
    (search_data_rows ["Hello, World!", "hello there"]).length ≤ 5 :=
  (c3_search_aggregator ["Hello, World!", "hello there"]).1

/-- C4: considering the users input from row 5 onward, the aggregator
returns at most 10 data rows, sorted descending by the coerced views
column; every returned row stems from a row (at position 5 or later) whose
views cell is numerically coercible — non-coercible rows are excluded;
the returned rows dominate every excluded candidate; and among equal views
values the first-encountered row wins (for each value, the returned rows
form a prefix of the candidate rows with that value).  The emitted views
are integers by construction (`int(views)` on our integral cells). -/
theorem c4_user_aggregator (rows : List (List Cell)) :
    (user_data_rows rows).length ≤ 10
  ∧ (user_data_rows rows).Pairwise (fun p q => q.2 ≤ p.2)
  ∧ (∀ p ∈ user_data_rows rows, ∃ r ∈ rows.drop 4,
        getIdx Cell.blank r 0 = p.1 ∧ to_numeric (getIdx Cell.blank r 3) = some p.2)
  ∧ (∃ rest, List.Perm (userCandidates rows) (user_data_rows rows ++ rest)
        ∧ ∀ q ∈ rest, ∀ p ∈ user_data_rows rows, q.2 ≤ p.2)
  ∧ (∀ v, (user_data_rows rows).filter (fun p => decide (p.2 = v))
        <+: (userCandidates rows).filter (fun p => decide (p.2 = v))) := by
  refine ⟨?_, ?_, ?_, ?_, ?_⟩
  · have h := List.length_take 10 (sortDescBySnd (userCandidates rows))
    unfold user_data_rows mostCommon
    omega
  · exact (sortDescBySnd_sorted _).sublist (List.take_sublist _ _)
  · intro p hp
    have h1 : p ∈ sortDescBySnd (userCandidates rows) := List.take_subset _ _ hp
    have h2 : p ∈ userCandidates rows := (sortDescBySnd_perm _).mem_iff.1 h1
    unfold userCandidates userRowsCoerced at h2
    rw [← List.map_drop] at h2
    rw [List.mem_filterMap] at h2
    obtain ⟨a, ha, hpa⟩ := h2
    rw [List.mem_map] at ha
    obtain ⟨r, hr, hra⟩ := ha
    refine ⟨r, hr, ?_, ?_⟩
    · rcases hn : to_numeric (getIdx Cell.blank r 3) with _ | v
      · rw [← hra, hn] at hpa
        exact absurd hpa (by simp)
      · rw [← hra, hn] at hpa
        injection hpa with hpa
        rw [← hpa]
    · rcases hn : to_numeric (getIdx Cell.blank r 3) with _ | v
      · rw [← hra, hn] at hpa
        exact absurd hpa (by simp)
      · rw [← hra, hn] at hpa
        injection hpa with hpa
        rw [← hpa]
  · exact mostCommon_spec 10 (userCandidates rows)
  · intro v
    exact mostCommon_stable 10 (userCandidates rows) v

theorem c4_witness :
    (user_data_rows [[], [], [], [],
        [Cell.str "a", Cell.blank, Cell.blank, Cell.num 3],
        [Cell.str "b", Cell.blank, Cell.blank, Cell.str "x"],
        [Cell.str "c", Cell.blank, Cell.blank, Cell.num 7]]).length ≤ 10 :=
  (c4_user_aggregator _).1

/-- The AggregateTable invariant: every row (the prepended header row
included) has the header row's column count. -/
def uniformTable (t : List (List Out)) : Prop :=
  ∀ row ∈ t, row.length = (t.headD []).length

/-- C5: for each of the four tables handed to the renderer (categories,
articles, searches, users), every data row has the same column count as
the header row prepended to that table. -/
theorem c5_aggregate_table_invariant (inp : Inputs) (r : Report)
    (h : run inp = some r) :
    uniformTable r.categoriesTable ∧ uniformTable r.articlesTable
  ∧ uniformTable r.searchesTable ∧ uniformTable r.usersTable := by
  rw [run_eq_some_iff] at h
  obtain ⟨cdf, qdf, qrows, sdf, queries, udf, hc, hlen, hwid, hq, hqw, hqr, hs,
    hsw, hsq, hu, huw, hrr⟩ := h
  subst hrr
  refine ⟨?_, ?_, ?_, ?_⟩
  · intro row hrow
    rcases List.mem_cons.1 hrow with rfl | hrow2
    · rfl
    · show row.length = 2
      unfold category_rows at hrow2
      rw [List.mem_map] at hrow2
      obtain ⟨r', hr', hmap⟩ := hrow2
      rw [← hmap, List.length_map, List.length_take]
      have hmem : r' ∈ cdf.rows := List.drop_subset _ _ (List.take_subset _ _ hr')
      have hlen' := cdf.len_of_mem hmem
      omega
  · intro row hrow
    rcases List.mem_cons.1 hrow with rfl | hrow2
    · rfl
    · show row.length = 3
      obtain ⟨r', hr', hone⟩ := questionsRowsAux_mem hqr row hrow2
      exact questionsRowOne_length hone
  · intro row hrow
    rcases List.mem_cons.1 hrow with rfl | hrow2
    · rfl
    · rw [List.mem_map] at hrow2
      obtain ⟨p, hp, hmap⟩ := hrow2
      rw [← hmap]
      rfl
  · intro row hrow
    rcases List.mem_cons.1 hrow with rfl | hrow2
    · rfl
    · rw [List.mem_map] at hrow2
      obtain ⟨p, hp, hmap⟩ := hrow2
      rw [← hmap]
      rfl

theorem c5_witness :
    uniformTable (mkReport cdfGood [] ["Hello, World!"] udfEmpty).categoriesTable
  ∧ uniformTable (mkReport cdfGood [] ["Hello, World!"] udfEmpty).articlesTable
  ∧ uniformTable (mkReport cdfGood [] ["Hello, World!"] udfEmpty).searchesTable
  ∧ uniformTable (mkReport cdfGood [] ["Hello, World!"] udfEmpty).usersTable :=
  c5_aggregate_table_invariant inpGood (mkReport cdfGood [] ["Hello, World!"] udfEmpty) rfl

/-- C6: the run completes (and the PDF document comes into existence) if
and only if every unguarded stage succeeds: all four files present, the
two `iloc` date-cell accesses in bounds, the article file wide enough and
all its sliced date cells parseable, the searches file wide enough with
all query cells strings, the users file wide enough.  The guarded
date-range parses are absent from these conditions: their failure never
aborts.  Conversely, if any such stage fails, the run aborts with no
report produced. -/
theorem c6_all_or_nothing (inp : Inputs) :
    ((∃ r, run inp = some r) ↔ stagesOk inp)
  ∧ (¬ stagesOk inp → run inp = none) := by
  refine ⟨run_isSome_iff_stagesOk inp, ?_⟩
  intro hnot
  rcases hr : run inp with _ | r
  · rfl
  · exact absurd ((run_isSome_iff_stagesOk inp).1 ⟨r, hr⟩) hnot

theorem c6_witness :
    (∃ r, run inpGood = some r)
  ∧ run ⟨none, some qdfEmpty, some sdfOne, some udfEmpty⟩ = none := by
  constructor
  · exact (c6_all_or_nothing inpGood).1.2
      ⟨cdfGood, qdfEmpty, sdfOne, udfEmpty, rfl, by decide, by decide, rfl,
       by decide, by decide, rfl, by decide, by decide, rfl, by decide⟩
  · refine (c6_all_or_nothing _).2 ?_
    rintro ⟨cdf, qdf, sdf, udf, hc, _⟩
    cases hc

/-- C8: when a run completes, it prints exactly one informational success
line; when additionally the date-range cells were missing or unparseable
it prints exactly one warning line (before the success line) to standard
output, the run still completes and the document is still produced. -/
theorem c8_console_output (inp : Inputs) (cdf : DataFrame)
    (hc : inp.categories = some cdf) :
    (∀ r, run inp = some r →
        (to_datetime_strict (cellAt cdf 0 1) ≠ none
            ∧ to_datetime_strict (cellAt cdf 1 1) ≠ none →
          r.stdoutLines = [successMsg])
        ∧ (to_datetime_strict (cellAt cdf 0 1) = none
            ∨ to_datetime_strict (cellAt cdf 1 1) = none →
          r.stdoutLines = [errMsg, successMsg] ∧ r.outputFile = "wiki_kpi_report.pdf"))
  ∧ (stagesOk inp → ∃ r, run inp = some r) := by
  constructor
  · intro r hr
    rw [run_eq_some_iff] at hr
    obtain ⟨cdf', qdf, qrows, sdf, queries, udf, hc', _, _, _, _, _, _, _, _, _,
      _, hrr⟩ := hr
    rw [hc'] at hc
    injection hc with hcc
    rw [← hcc]
    subst hrr
    constructor
    · intro hgood
      show (if (to_datetime_strict (cellAt cdf' 0 1)).isNone = true
              ∨ (to_datetime_strict (cellAt cdf' 1 1)).isNone = true
            then [errMsg] else []) ++ [successMsg] = [successMsg]
      rw [if_neg, List.nil_append]
      rintro (hbad | hbad)
      · exact hgood.1 (Option.isNone_iff_eq_none.1 hbad)
      · exact hgood.2 (Option.isNone_iff_eq_none.1 hbad)
    · intro hbad
      refine ⟨?_, rfl⟩
      show (if (to_datetime_strict (cellAt cdf' 0 1)).isNone = true
              ∨ (to_datetime_strict (cellAt cdf' 1 1)).isNone = true
            then [errMsg] else []) ++ [successMsg] = [errMsg, successMsg]
      rw [if_pos, List.cons_append, List.nil_append]
      rcases hbad with hbad | hbad
      · exact Or.inl (Option.isNone_iff_eq_none.2 hbad)
      · exact Or.inr (Option.isNone_iff_eq_none.2 hbad)
  · exact (run_isSome_iff_stagesOk inp).2

theorem c8_witness :
    (mkReport cdfBad [] ["Hello, World!"] udfEmpty).stdoutLines
      = [errMsg, successMsg]
  ∧ (mkReport cdfGood [] ["Hello, World!"] udfEmpty).stdoutLines
      = [successMsg] := by
  constructor
  · exact (((c8_console_output inpBad cdfBad rfl).1
      (mkReport cdfBad [] ["Hello, World!"] udfEmpty) rfl).2
      (Or.inl (by decide))).1
  · exact ((c8_console_output inpGood cdfGood rfl).1
      (mkReport cdfGood [] ["Hello, World!"] udfEmpty) rfl).1
      ⟨by decide, by decide⟩

/-- C9: over the fixed slice `iloc[4:14]` of the articles file, the
aggregator succeeds exactly when every sliced row's date cell (column 8)
is date-coercible; a coercible cell is reformatted as "Month DD, YYYY" in
the emitted `[article, views, formatted-date]` row; a non-coercible cell
propagates as an uncaught parse error that aborts the whole run; and on
success the articles table carries the header
['Article', 'Views', 'Last Updated']. -/
theorem c9_article_dates :
    (∀ qdf : DataFrame, (questionsRows qdf).isSome = true
        ↔ ∀ r ∈ (qdf.rows.drop 4).take 10,
            (to_datetime_flex (getIdx Cell.blank r 8)).isSome = true)
  ∧ (∀ (r : List Cell) (d : Date), to_datetime_flex (getIdx Cell.blank r 8) = some d →
        questionsRowOne r
          = some [Out.cell (getIdx Cell.blank r 1), Out.cell (getIdx Cell.blank r 3),
                  Out.str (strftimeBdY d)])
  ∧ (∀ inp qdf, inp.questions = some qdf → questionsRows qdf = none →
        run inp = none)
  ∧ (∀ inp r, run inp = some r →
        r.articlesTable.headD []
          = [Out.str "Article", Out.str "Views", Out.str "Last Updated"]) := by
  refine ⟨?_, ?_, ?_, ?_⟩
  · intro qdf
    exact questionsRowsAux_isSome ((qdf.rows.drop 4).take 10)
  · intro r d hd
    exact questionsRowOne_eq hd
  · intro inp qdf hq hnone
    rcases hr : run inp with _ | r
    · rfl
    · rw [run_eq_some_iff] at hr
      obtain ⟨cdf, qdf', qrows, sdf, queries, udf, _, _, _, hq', _, hqr, _⟩ := hr
      rw [hq'] at hq
      injection hq with hqq
      rw [← hqq] at hnone
      rw [hnone] at hqr
      exact Option.noConfusion hqr
  · intro inp r hr
    rw [run_eq_some_iff] at hr
    obtain ⟨cdf, qdf, qrows, sdf, queries, udf, _, _, _, _, _, _, _, _, _, _, _,
      hrr⟩ := hr
    rw [hrr]
    rfl

theorem c9_witness :
    questionsRowOne (qrow (Cell.str "03/05/2024"))
      = some [Out.cell (Cell.str "How to reset a password"), Out.cell (Cell.num 12),
              Out.str "March 05, 2024"]
  ∧ run inpQBad = none := by
  constructor
  · have h := c9_article_dates.2.1 (qrow (Cell.str "03/05/2024")) ⟨2024, 3, 5⟩
      (by decide)
    exact h.trans (by decide)
  · exact c9_article_dates.2.2.1 inpQBad qdfBadDate rfl (by decide)
